import Mathlib

/-!
Shallow embedding of the `matrix-lib` Rust library
(`src/utils/ndarray.rs` and `src/utils/matrix.rs`) and proofs of the
specified properties.  `NDArray` models the strided n-dimensional array
with flat storage; `Matrix` models the row-of-rows rank-2 container.
Rust's `usize` values are modelled as `Nat` (the quantities involved are
sizes and indices; no wrapping arithmetic occurs in the source),
`Option` as `Option`, `Result` as `Except`, `T::default()` as
`Inhabited.default`, and `T::from(i32)` as an explicit `Int → α`
conversion function.
-/

deriving instance DecidableEq for Except

namespace MatrixLib

/-- The error enum from `ndarray.rs`. -/
inductive NDArrayError where
  | shapeMismatch
  | indexOutOfBounds
  | invalidShape
  | broadcastError
  | dimensionError
deriving DecidableEq, Repr

/-- `NDArray<T>`: flat storage, shape, strides. -/
structure NDArray (α : Type) where
  data : List α
  shape : List Nat
  strides : List Nat
deriving DecidableEq, Repr

namespace NDArray

/-- Helper loop of `calculate_strides`: walks the reversed shape, pushing
the running stride and multiplying it by each dimension. -/
def calcStridesGo : List Nat → Nat → List Nat
  | [], _ => []
  | d :: rest, stride => stride :: calcStridesGo rest (stride * d)

/-- `NDArray::calculate_strides` (row-major): iterate the shape reversed,
collecting running products, then reverse the result. -/
def calculate_strides (shape : List Nat) : List Nat :=
  (calcStridesGo shape.reverse 1).reverse

/-- `NDArray::with_value`: array of the given shape filled with `value`. -/
def with_value (shape : List Nat) (value : α) : NDArray α :=
  { data := List.replicate shape.prod value
    shape := shape
    strides := calculate_strides shape }

/-- `NDArray::new`: filled with the element type's default. -/
def new [Inhabited α] (shape : List Nat) : NDArray α :=
  with_value shape default

/-- `NDArray::from_vec`: flat data plus shape, checked for size. -/
def from_vec (data : List α) (shape : List Nat) : Except NDArrayError (NDArray α) :=
  if data.length ≠ shape.prod then
    .error .shapeMismatch
  else
    .ok { data := data, shape := shape, strides := calculate_strides shape }

/-- `NDArray::size`: `self.data.len()`. -/
def size (a : NDArray α) : Nat := a.data.length

/-- `NDArray::ndim`: `self.shape.len()`. -/
def ndim (a : NDArray α) : Nat := a.shape.length

/-- Loop body of `flat_index`: the source iterates over
`indices.zip(strides)` with a counter `i`, checking `idx >= shape[i]` and
accumulating `idx * stride`.  Since the arity guard forces
`indices.len() == shape.len()`, consuming `shape` in lockstep is
equivalent to indexing it by the counter. -/
def flatIndexGo : List Nat → List Nat → List Nat → Nat → Option Nat
  | idx :: is, stride :: ss, dim :: ds, acc =>
      if idx ≥ dim then none
      else flatIndexGo is ss ds (acc + idx * stride)
  | _, _, _, acc => some acc

/-- `NDArray::flat_index`: arity check, then per-axis bounds check and
stride accumulation. -/
def flat_index (a : NDArray α) (indices : List Nat) : Option Nat :=
  if indices.length ≠ a.shape.length then none
  else flatIndexGo indices a.strides a.shape 0

/-- `NDArray::get`: flat index, then bounds-checked data lookup. -/
def get (a : NDArray α) (indices : List Nat) : Option α :=
  (a.flat_index indices).bind (fun idx => a.data[idx]?)

/-- `NDArray::set`: on a valid flat index write the cell, otherwise
return `IndexOutOfBounds` and leave the array untouched.  The mutation of
`self` is modelled by returning the updated array alongside the result. -/
def set (a : NDArray α) (indices : List Nat) (value : α) :
    Except NDArrayError Unit × NDArray α :=
  match a.flat_index indices with
  | some idx => (.ok (), { a with data := a.data.set idx value })
  | none => (.error .indexOutOfBounds, a)

/-- `NDArray::reshape`: same data, new shape and strides, iff the total
size is preserved. -/
def reshape (a : NDArray α) (new_shape : List Nat) :
    Except NDArrayError (NDArray α) :=
  if new_shape.prod ≠ a.size then
    .error .shapeMismatch
  else
    .ok { data := a.data, shape := new_shape, strides := calculate_strides new_shape }

/-- `NDArray::flatten`: `self.reshape(&[self.size()]).unwrap()`.  The
source unwraps; the error branch (modelled as returning `a`) is proved
unreachable below. -/
def flatten (a : NDArray α) : NDArray α :=
  match a.reshape [a.size] with
  | .ok r => r
  | .error _ => a

/-- `NDArray::zeros`: filled with `T::from(0)`. -/
def zeros (ofInt : Int → α) (shape : List Nat) : NDArray α :=
  with_value shape (ofInt 0)

/-- `NDArray::ones`: filled with `T::from(1)`. -/
def ones (ofInt : Int → α) (shape : List Nat) : NDArray α :=
  with_value shape (ofInt 1)

/-- Well-formedness invariant of the source struct: the flat data has
exactly `product(shape)` elements and the strides are the row-major
function of the shape. -/
def WF (a : NDArray α) : Prop :=
  a.data.length = a.shape.prod ∧ a.strides = calculate_strides a.shape

instance (a : NDArray α) : Decidable a.WF := by
  unfold WF; infer_instance

end NDArray

/-- `Matrix<T>`: rows of values plus explicit `rows` / `cols` counts. -/
structure Matrix (α : Type) where
  data : List (List α)
  rows : Nat
  cols : Nat
deriving DecidableEq, Repr

namespace Matrix

/-- `Matrix::new`: `rows` × `cols` filled with the element default. -/
def new [Inhabited α] (rows cols : Nat) : Matrix α :=
  { data := List.replicate rows (List.replicate cols (default : α))
    rows := rows
    cols := cols }

/-- `Matrix::from_vec`: reject empty input, take `cols` from the first
row, reject any row of a different length. -/
def from_vec (data : List (List α)) : Except String (Matrix α) :=
  if data.isEmpty then
    .error "Matrix cannot be empty"
  else if data.all (fun row => row.length = (data.headD []).length) then
    .ok { data := data, rows := data.length, cols := (data.headD []).length }
  else
    .error "All rows must have the same length"

/-- `Matrix::get`: bounds-checked nested lookup. -/
def get (m : Matrix α) (row col : Nat) : Option α :=
  (m.data[row]?).bind (fun r => r[col]?)

/-- `Matrix::set`: explicit bounds check, then in-place write (modelled
by returning the updated matrix alongside the result). -/
def set (m : Matrix α) (row col : Nat) (value : α) :
    Except String Unit × Matrix α :=
  if row ≥ m.rows ∨ col ≥ m.cols then
    (.error "Index out of bounds", m)
  else
    (.ok (), { m with data := m.data.set row ((m.data.getD row []).set col value) })

/-- The `Index<(usize, usize)>` impl, `matrix[(r, c)]`.  The Rust
version panics out of bounds; within the library it is only invoked at
in-bounds coordinates, where `getD` agrees with it. -/
def entry [Inhabited α] (m : Matrix α) (row col : Nat) : α :=
  (m.data.getD row []).getD col default

/-- `Matrix::identity`: start from `new(size, size)` and set each
diagonal cell to `T::from(1)`. -/
def identity [Inhabited α] (ofInt : Int → α) (size : Nat) : Matrix α :=
  { (new size size : Matrix α) with
    data := (List.range size).foldl
      (fun d i => d.set i ((d.getD i []).set i (ofInt 1)))
      (new size size : Matrix α).data }

/-- The `Mul` impl: fail when inner dimensions disagree, otherwise each
output cell accumulates `sum = sum + a[i][k] * b[k][j]` starting from
`T::default()`, for `k` over `0..self.cols`; every cell of the
`new(self.rows, other.cols)` result is overwritten by the loop. -/
def mul [Inhabited α] [Add α] [Mul α] (a b : Matrix α) :
    Except String (Matrix α) :=
  if a.cols ≠ b.rows then
    .error "Number of columns in first matrix must equal number of rows in second matrix"
  else
    .ok { data := (List.range a.rows).map (fun i =>
            (List.range b.cols).map (fun j =>
              (List.range a.cols).foldl
                (fun sum k => sum + a.entry i k * b.entry k j) (default : α)))
          rows := a.rows
          cols := b.cols }

/-- Well-formedness invariant of the source struct: `data` has `rows`
rows and every row has exactly `cols` elements. -/
def WF (m : Matrix α) : Prop :=
  m.data.length = m.rows ∧ ∀ row ∈ m.data, row.length = m.cols

instance (m : Matrix α) : Decidable m.WF := by
  unfold WF; infer_instance

end Matrix

/-- The row-major flattening loop of `From<Matrix<T>> for NDArray<T>`:
`matrix[(r, c)]` for `r` over `0..rows`, `c` over `0..cols`. -/
def matrixFlatData [Inhabited α] (m : Matrix α) : List α :=
  (List.range m.rows).flatMap (fun r =>
    (List.range m.cols).map (fun c => m.entry r c))

/-- `impl From<Matrix<T>> for NDArray<T>`: flatten row-major into shape
`[rows, cols]`, then `from_vec(..).unwrap()`.  The error branch
(modelled by rebuilding the same fields directly) is proved unreachable
below. -/
def matrix_to_array [Inhabited α] (m : Matrix α) : NDArray α :=
  match NDArray.from_vec (matrixFlatData m) [m.rows, m.cols] with
  | .ok a => a
  | .error _ =>
      { data := matrixFlatData m
        shape := [m.rows, m.cols]
        strides := NDArray.calculate_strides [m.rows, m.cols] }

/-- The row-collecting loop of `TryFrom<NDArray<T>> for Matrix<T>`:
`array.get(&[r, c]).unwrap()` for each cell (the unwrap is modelled with
a default that is never used at in-bounds coordinates of a well-formed
array). -/
def arrayRowsData [Inhabited α] (a : NDArray α) (rows cols : Nat) :
    List (List α) :=
  (List.range rows).map (fun r =>
    (List.range cols).map (fun c => (a.get [r, c]).getD default))

/-- `impl TryFrom<NDArray<T>> for Matrix<T>`: require rank 2, collect
the cells row by row, then `Matrix::from_vec`, mapping its error to
`ShapeMismatch`. -/
def array_to_matrix [Inhabited α] (a : NDArray α) :
    Except NDArrayError (Matrix α) :=
  if a.ndim ≠ 2 then
    .error .dimensionError
  else
    match Matrix.from_vec (arrayRowsData a (a.shape.getD 0 0) (a.shape.getD 1 0)) with
    | .ok m => .ok m
    | .error _ => .error .shapeMismatch

/-! ### Auxiliary notions for stating the claims -/

/-- Per-axis bounds check: the index list and the shape have the same
length and each coordinate is below the corresponding extent. -/
def inBounds : List Nat → List Nat → Bool
  | [], [] => true
  | i :: is, d :: ds => decide (i < d) && inBounds is ds
  | _, _ => false

/-- Row-major mixed-radix value of an index list for a shape:
`sum of index[axis] * product(shape[axis+1..])`. -/
def mrv : List Nat → List Nat → Nat
  | i :: is, _ :: ds => i * ds.prod + mrv is ds
  | _, _ => 0

/-! ### Stride lemmas -/

theorem calcStridesGo_append (l : List Nat) (d s : Nat) :
    NDArray.calcStridesGo (l ++ [d]) s =
      NDArray.calcStridesGo l s ++ [s * l.prod] := by
  induction l generalizing s with
  | nil => simp [NDArray.calcStridesGo]
  | cons e l ih =>
      simp [NDArray.calcStridesGo, ih (s * e), Nat.mul_assoc]

theorem calculate_strides_nil :
    NDArray.calculate_strides [] = ([] : List Nat) := rfl

theorem calculate_strides_cons (d : Nat) (l : List Nat) :
    NDArray.calculate_strides (d :: l) =
      l.prod :: NDArray.calculate_strides l := by
  unfold NDArray.calculate_strides
  rw [List.reverse_cons, calcStridesGo_append]
  simp [List.prod_reverse]

theorem calculate_strides_length (l : List Nat) :
    (NDArray.calculate_strides l).length = l.length := by
  induction l with
  | nil => rfl
  | cons d l ih => rw [calculate_strides_cons]; simp [ih]

theorem calculate_strides_getElem (l : List Nat) (i : Nat) (h : i < l.length) :
    (NDArray.calculate_strides l)[i]? = some ((l.drop (i + 1)).prod) := by
  induction l generalizing i with
  | nil => simp at h
  | cons d l ih =>
      rw [calculate_strides_cons]
      cases i with
      | zero => simp
      | succ i => simpa using ih i (by simpa using h)

/-! ### Flat-index lemmas -/

theorem mrv_lt_prod (is ds : List Nat) (h : inBounds is ds = true) :
    mrv is ds < ds.prod := by
  induction is generalizing ds with
  | nil =>
      cases ds with
      | nil => simp [mrv]
      | cons d ds => simp [inBounds] at h
  | cons i is ih =>
      cases ds with
      | nil => simp [inBounds] at h
      | cons d ds =>
          simp only [inBounds, Bool.and_eq_true, decide_eq_true_eq] at h
          have ihs := ih ds h.2
          have h1 : i + 1 ≤ d := h.1
          simp only [mrv, List.prod_cons]
          calc i * ds.prod + mrv is ds < (i + 1) * ds.prod := by
                rw [Nat.succ_mul]; omega
            _ ≤ d * ds.prod := Nat.mul_le_mul_right _ h1

theorem flatIndexGo_calc (is : List Nat) (ds : List Nat) (acc : Nat)
    (h : is.length = ds.length) :
    NDArray.flatIndexGo is (NDArray.calculate_strides ds) ds acc =
      if inBounds is ds then some (acc + mrv is ds) else none := by
  induction is generalizing ds acc with
  | nil =>
      cases ds with
      | nil => simp [NDArray.flatIndexGo, inBounds, mrv, calculate_strides_nil]
      | cons d ds => simp at h
  | cons i is ih =>
      cases ds with
      | nil => simp at h
      | cons d ds =>
          rw [calculate_strides_cons]
          simp only [NDArray.flatIndexGo]
          by_cases hid : i < d
          · rw [if_neg (by omega)]
            rw [ih ds _ (by simpa using h)]
            simp only [inBounds, decide_eq_true hid, Bool.true_and, mrv]
            by_cases hb : inBounds is ds = true
            · simp [hb, Nat.add_assoc]
            · simp [hb]
          · rw [if_pos (by omega)]
            have hfalse : inBounds (i :: is) (d :: ds) = false := by
              simp [inBounds]; omega
            simp [hfalse]

/-- Characterization of `flat_index` for any array whose strides are the
row-major function of its shape: it succeeds exactly on well-arity,
in-bounds indices, returning the mixed-radix offset. -/
theorem flat_index_eq (a : NDArray α)
    (hs : a.strides = NDArray.calculate_strides a.shape) (is : List Nat) :
    a.flat_index is =
      if is.length = a.shape.length ∧ inBounds is a.shape = true
      then some (mrv is a.shape) else none := by
  unfold NDArray.flat_index
  by_cases hl : is.length = a.shape.length
  · rw [if_neg (by omega), hs, flatIndexGo_calc is a.shape 0 hl]
    by_cases hb : inBounds is a.shape = true
    · simp [hb, hl]
    · simp [hb, hl]
  · simp [hl]

/-- For a well-formed array, an in-bounds flat offset is strictly below
the data length. -/
theorem flat_index_lt (a : NDArray α) (h : a.WF) (is : List Nat) (n : Nat)
    (hn : a.flat_index is = some n) : n < a.data.length := by
  rw [flat_index_eq a h.2] at hn
  by_cases hcond : is.length = a.shape.length ∧ inBounds is a.shape = true
  · rw [if_pos hcond] at hn
    injection hn with hn
    subst hn
    rw [h.1]
    exact mrv_lt_prod is a.shape hcond.2
  · simp [hcond] at hn

/-! ### Flatten lemmas -/

theorem calculate_strides_singleton (n : Nat) :
    NDArray.calculate_strides [n] = [1] := by
  rw [calculate_strides_cons]; rfl

theorem reshape_to_size (a : NDArray α) :
    a.reshape [a.size] =
      .ok { data := a.data, shape := [a.size], strides := [1] } := by
  unfold NDArray.reshape
  rw [if_neg (by simp [NDArray.size]), calculate_strides_singleton]

theorem flatten_eq (a : NDArray α) :
    a.flatten = { data := a.data, shape := [a.size], strides := [1] } := by
  unfold NDArray.flatten
  rw [reshape_to_size]

theorem flatten_get (a : NDArray α) (i : Nat) :
    a.flatten.get [i] = a.data[i]? := by
  rw [flatten_eq]
  unfold NDArray.get
  rw [flat_index_eq _ (by rw [calculate_strides_singleton]) [i]]
  by_cases hi : i < a.size
  · simp [inBounds, mrv, hi]
  · have hnone : a.data[i]? = none := List.getElem?_eq_none (by
      simpa [NDArray.size] using Nat.le_of_not_lt hi)
    simp [inBounds, mrv, hi, hnone]

/-! ### Set equations -/

theorem flat_index_of_inBounds (a : NDArray α)
    (hs : a.strides = NDArray.calculate_strides a.shape) (is : List Nat)
    (hcond : is.length = a.shape.length ∧ inBounds is a.shape = true) :
    a.flat_index is = some (mrv is a.shape) := by
  rw [flat_index_eq a hs is, if_pos hcond]

theorem get_set_self (a : NDArray α) (h : a.WF) (is : List Nat) (v : α)
    (hcond : is.length = a.shape.length ∧ inBounds is a.shape = true) :
    ({ a with data := a.data.set (mrv is a.shape) v } : NDArray α).get is =
      some v := by
  have hlt : mrv is a.shape < a.data.length := by
    rw [h.1]; exact mrv_lt_prod is a.shape hcond.2
  have hfi : ({ a with data := a.data.set (mrv is a.shape) v } :
      NDArray α).flat_index is = some (mrv is a.shape) :=
    flat_index_of_inBounds _ h.2 is hcond
  unfold NDArray.get
  rw [hfi]
  show (a.data.set (mrv is a.shape) v)[mrv is a.shape]? = some v
  exact List.getElem?_set_eq_of_lt v hlt

theorem set_eq_of_some (a : NDArray α) (is : List Nat) (v : α) (n : Nat)
    (h : a.flat_index is = some n) :
    a.set is v = (.ok (), { a with data := a.data.set n v }) := by
  unfold NDArray.set
  rw [h]

theorem set_eq_of_none (a : NDArray α) (is : List Nat) (v : α)
    (h : a.flat_index is = none) :
    a.set is v = (.error .indexOutOfBounds, a) := by
  unfold NDArray.set
  rw [h]

/-! ### Claims -/

/-- Claim C2: `reshape(new_shape)` succeeds iff
`product(new_shape) == size()`, failing with `ShapeMismatch` otherwise;
on success the result carries `new_shape` and the identical flat element
sequence, so flattened lookups agree at every position. -/
theorem claim_C2_reshape {α : Type} (a : NDArray α) (new_shape : List Nat) :
    ((∃ r, a.reshape new_shape = .ok r) ↔ new_shape.prod = a.size) ∧
    (a.reshape new_shape = .error .shapeMismatch ↔ new_shape.prod ≠ a.size) ∧
    (∀ r, a.reshape new_shape = .ok r →
      r.shape = new_shape ∧ r.data = a.data ∧
      ∀ i : Nat, r.flatten.get [i] = a.flatten.get [i]) := by
  unfold NDArray.reshape
  by_cases hp : new_shape.prod = a.size
  · rw [if_neg (by omega)]
    refine ⟨⟨fun _ => hp, fun _ => ⟨_, rfl⟩⟩,
      ⟨fun h => Except.noConfusion h, fun h => absurd hp h⟩, ?_⟩
    rintro r hr
    injection hr with hr
    subst hr
    exact ⟨rfl, rfl, fun i => by rw [flatten_get, flatten_get]⟩
  · rw [if_pos (by omega)]
    exact ⟨⟨fun ⟨r, hr⟩ => Except.noConfusion hr, fun h => absurd h hp⟩,
      ⟨fun _ => hp, fun _ => rfl⟩, fun r hr => Except.noConfusion hr⟩

/-- Witness for C2 at `A = with_value [2,3] 0`, `new_shape = [6]`. -/
theorem claim_C2_reshape_witness :
    ((NDArray.with_value [2, 3] (0 : Int)).reshape [6] =
        .ok (NDArray.with_value [6] (0 : Int))) ∧
      (NDArray.with_value [6] (0 : Int)).shape = [6] ∧
      (NDArray.with_value [6] (0 : Int)).data =
        (NDArray.with_value [2, 3] (0 : Int)).data ∧
      (NDArray.with_value [6] (0 : Int)).flatten.get [4] =
        (NDArray.with_value [2, 3] (0 : Int)).flatten.get [4] := by
  have h := (claim_C2_reshape (NDArray.with_value [2, 3] (0 : Int)) [6]).2.2
    (NDArray.with_value [6] (0 : Int)) (by decide)
  exact ⟨by decide, h.1, h.2.1, h.2.2 4⟩

/-- Claim C3: `get(indices)` returns the stored element (the data cell
at the computed flat offset, which is strictly below the data length)
exactly when the arity matches and every coordinate is in range, and
returns `none` in every other case. -/
theorem claim_C3_get {α : Type} (a : NDArray α) (indices : List Nat)
    (h : a.WF) :
    ((a.get indices).isSome = true ↔
      indices.length = a.ndim ∧ inBounds indices a.shape = true) ∧
    (∀ n, a.flat_index indices = some n →
      n < a.data.length ∧ a.get indices = a.data[n]?) := by
  have hfi := flat_index_eq a h.2 indices
  constructor
  · by_cases hcond : indices.length = a.shape.length ∧ inBounds indices a.shape = true
    · have hlt : mrv indices a.shape < a.data.length := by
        rw [h.1]; exact mrv_lt_prod indices a.shape hcond.2
      refine ⟨fun _ => hcond, fun _ => ?_⟩
      unfold NDArray.get
      rw [hfi, if_pos hcond]
      show (a.data[mrv indices a.shape]?).isSome = true
      rw [List.getElem?_eq_getElem hlt]
      rfl
    · constructor
      · intro hsome
        unfold NDArray.get at hsome
        rw [hfi, if_neg hcond] at hsome
        exact Bool.noConfusion hsome
      · intro hc
        exact absurd hc hcond
  · intro n hn
    refine ⟨flat_index_lt a h indices n hn, ?_⟩
    unfold NDArray.get
    rw [hn]
    rfl

/-- Witness for C3 at the array `[[1,2,3],[4,5,6]]` and index `[1,2]`. -/
theorem claim_C3_get_witness :
    (NDArray.mk [1, 2, 3, 4, 5, 6] [2, 3] [3, 1] : NDArray Int).WF ∧
      ((NDArray.mk [1, 2, 3, 4, 5, 6] [2, 3] [3, 1] : NDArray Int).get
          [1, 2]).isSome = true ∧
      (NDArray.mk [1, 2, 3, 4, 5, 6] [2, 3] [3, 1] : NDArray Int).get [1, 2] =
        ([1, 2, 3, 4, 5, 6] : List Int)[5]? := by
  have hwf : (NDArray.mk [1, 2, 3, 4, 5, 6] [2, 3] [3, 1] : NDArray Int).WF :=
    by decide
  have h := claim_C3_get (NDArray.mk [1, 2, 3, 4, 5, 6] [2, 3] [3, 1]) [1, 2] hwf
  exact ⟨hwf, h.1.mpr (by decide), (h.2 5 (by decide)).2⟩

/-- Claim C4: `set(indices, value)` stores the value at the addressed
cell exactly when the arity matches and every coordinate is in range;
any violation returns `IndexOutOfBounds` and leaves the array as it
was. -/
theorem claim_C4_set {α : Type} (a : NDArray α) (indices : List Nat)
    (v : α) (h : a.WF) :
    (indices.length = a.ndim ∧ inBounds indices a.shape = true →
      ∃ n, a.flat_index indices = some n ∧
        a.set indices v = (.ok (), { a with data := a.data.set n v }) ∧
        (a.set indices v).2.get indices = some v) ∧
    (¬(indices.length = a.ndim ∧ inBounds indices a.shape = true) →
      a.set indices v = (.error .indexOutOfBounds, a)) := by
  have hfi := flat_index_eq a h.2 indices
  constructor
  · intro hcond
    have hcond' : indices.length = a.shape.length ∧
        inBounds indices a.shape = true := hcond
    have hn : a.flat_index indices = some (mrv indices a.shape) :=
      flat_index_of_inBounds a h.2 indices hcond'
    have hset := set_eq_of_some a indices v (mrv indices a.shape) hn
    refine ⟨mrv indices a.shape, hn, hset, ?_⟩
    rw [hset]
    exact get_set_self a h indices v hcond'
  · intro hcond
    have hcond' : ¬(indices.length = a.shape.length ∧
        inBounds indices a.shape = true) := hcond
    refine set_eq_of_none a indices v ?_
    rw [hfi, if_neg hcond']

/-- Witness for C4: writing `42` at `[1,2]` of a `2×3` array, and a
rejected write at `[2,0]`. -/
theorem claim_C4_set_witness :
    (NDArray.mk [0, 0, 0, 0, 0, 0] [2, 3] [3, 1] : NDArray Int).WF ∧
      ((NDArray.mk [0, 0, 0, 0, 0, 0] [2, 3] [3, 1] : NDArray Int).set
          [1, 2] 42).2.get [1, 2] = some 42 ∧
      (NDArray.mk [0, 0, 0, 0, 0, 0] [2, 3] [3, 1] : NDArray Int).set
          [2, 0] 42 =
        (.error .indexOutOfBounds,
          NDArray.mk [0, 0, 0, 0, 0, 0] [2, 3] [3, 1]) := by
  have hwf : (NDArray.mk [0, 0, 0, 0, 0, 0] [2, 3] [3, 1] : NDArray Int).WF :=
    by decide
  refine ⟨hwf, ?_, ?_⟩
  · obtain ⟨n, -, -, hget⟩ :=
      (claim_C4_set (NDArray.mk [0, 0, 0, 0, 0, 0] [2, 3] [3, 1]) [1, 2] 42
        hwf).1 (by decide)
    exact hget
  · exact (claim_C4_set (NDArray.mk [0, 0, 0, 0, 0, 0] [2, 3] [3, 1]) [2, 0]
      42 hwf).2 (by decide)

/-- Claim C5: strides are the row-major function of the shape for every
array produced by construction or reshape, with
`strides[i] = product(shape[i+1..])`; concretely, shape `[2,3,4]` gives
strides `[12,4,1]`, `flat_index([1,2,3]) = 23`, and `[2,0,0]` is
rejected. -/
theorem claim_C5_strides :
    (∀ (α : Type) (v : α) (shape : List Nat),
      (NDArray.with_value shape v).strides =
        NDArray.calculate_strides shape) ∧
    (∀ (α : Type) (data : List α) (shape : List Nat) (a : NDArray α),
      NDArray.from_vec data shape = .ok a →
        a.strides = NDArray.calculate_strides shape) ∧
    (∀ (α : Type) (a r : NDArray α) (ns : List Nat),
      a.reshape ns = .ok r → r.strides = NDArray.calculate_strides ns) ∧
    (∀ (shape : List Nat) (i : Nat), i < shape.length →
      (NDArray.calculate_strides shape)[i]? =
        some ((shape.drop (i + 1)).prod)) ∧
    NDArray.calculate_strides [2, 3, 4] = [12, 4, 1] ∧
    (NDArray.with_value [2, 3, 4] (0 : Int)).flat_index [1, 2, 3] =
      some 23 ∧
    (NDArray.with_value [2, 3, 4] (0 : Int)).flat_index [2, 0, 0] = none := by
  refine ⟨fun α v shape => rfl, ?_, ?_, calculate_strides_getElem,
    by decide, by decide, by decide⟩
  · intro α data shape a ha
    unfold NDArray.from_vec at ha
    by_cases hl : data.length = shape.prod
    · rw [if_neg (by omega)] at ha
      injection ha with ha
      rw [← ha]
    · rw [if_pos (by omega)] at ha
      simp at ha
  · intro α a r ns hr
    unfold NDArray.reshape at hr
    by_cases hp : ns.prod = a.size
    · rw [if_neg (by omega)] at hr
      injection hr with hr
      rw [← hr]
    · rw [if_pos (by omega)] at hr
      simp at hr

/-- Witness for C5: the stride-indexing clause evaluated at shape
`[2,3,4]`, axis `1`, and the constructor clauses at concrete arrays. -/
theorem claim_C5_strides_witness :
    (1 < ([2, 3, 4] : List Nat).length ∧
      (NDArray.calculate_strides [2, 3, 4])[1]? =
        some ((([2, 3, 4] : List Nat).drop 2).prod)) ∧
    (NDArray.from_vec [5, 7] [2, 1] =
        .ok (NDArray.mk [5, 7] [2, 1] [1, 1] : NDArray Int)) ∧
      (NDArray.mk [5, 7] [2, 1] [1, 1] : NDArray Int).strides =
        NDArray.calculate_strides [2, 1] := by
  refine ⟨⟨by decide, claim_C5_strides.2.2.2.1 [2, 3, 4] 1 (by decide)⟩,
    by decide, ?_⟩
  exact claim_C5_strides.2.1 Int [5, 7] [2, 1]
    (NDArray.mk [5, 7] [2, 1] [1, 1]) (by decide)

/-- Claim C6: `flatten()` always succeeds — `reshape([size()])` never
returns `ShapeMismatch` — its result equals that reshape, has rank 1 and
length `size()`, and flatten is idempotent. -/
theorem claim_C6_flatten {α : Type} (a : NDArray α) :
    a.reshape [a.size] = .ok a.flatten ∧
    a.flatten.ndim = 1 ∧
    a.flatten.shape = [a.size] ∧
    a.flatten.size = a.size ∧
    a.flatten.flatten = a.flatten := by
  refine ⟨by rw [reshape_to_size, flatten_eq], ?_, ?_, ?_, ?_⟩
  · rw [flatten_eq]; rfl
  · rw [flatten_eq]
  · rw [flatten_eq]; rfl
  · rw [flatten_eq a, flatten_eq]
    rfl

/-- Claim C10: a failed `NDArray::set` or `Matrix::set` leaves the
container completely unchanged. -/
theorem claim_C10_set_atomic {α : Type} (a : NDArray α)
    (indices : List Nat) (v : α) (m : Matrix α) (r c : Nat) (w : α) :
    ((a.set indices v).1 = .error .indexOutOfBounds →
      (a.set indices v).2 = a) ∧
    (∀ e, (m.set r c w).1 = .error e → (m.set r c w).2 = m) := by
  constructor
  · intro herr
    cases hfi : a.flat_index indices with
    | some n =>
        rw [set_eq_of_some a indices v n hfi] at herr
        exact Except.noConfusion herr
    | none => rw [set_eq_of_none a indices v hfi]
  · intro e herr
    unfold Matrix.set at herr ⊢
    by_cases hb : r ≥ m.rows ∨ c ≥ m.cols
    · rw [if_pos hb]
    · rw [if_neg hb] at herr
      exact Except.noConfusion herr

/-- Witness for C10: a rejected write to a `1`-element array at index
`[5]`, and a rejected write to a `1×1` matrix at row 5, both leaving the
containers unchanged. -/
theorem claim_C10_set_atomic_witness :
    ((NDArray.mk [0] [1] [1] : NDArray Int).set [5] 9).1 =
        .error .indexOutOfBounds ∧
      ((NDArray.mk [0] [1] [1] : NDArray Int).set [5] 9).2 =
        NDArray.mk [0] [1] [1] ∧
      ((Matrix.mk [[0]] 1 1 : Matrix Int).set 5 0 9).2 = Matrix.mk [[0]] 1 1 := by
  refine ⟨by decide, ?_, ?_⟩
  · exact (claim_C10_set_atomic (NDArray.mk [0] [1] [1] : NDArray Int) [5] 9
      (Matrix.mk [[0]] 1 1) 5 0 9).1 (by decide)
  · exact (claim_C10_set_atomic (NDArray.mk [0] [1] [1] : NDArray Int) [5] 9
      (Matrix.mk [[0]] 1 1) 5 0 9).2 "Index out of bounds" (by decide)

/-! ### Row-major flattening lemmas -/

theorem flatRows_length (R C : Nat) (f : Nat → Nat → α) :
    ((List.range R).flatMap (fun r => (List.range C).map (f r))).length =
      R * C := by
  induction R with
  | zero => simp
  | succ R ih =>
      rw [List.range_succ, List.flatMap_append, List.length_append, ih]
      simp [List.flatMap_cons, Nat.succ_mul]

theorem flatRows_getElem (R C : Nat) (f : Nat → Nat → α) (r j : Nat)
    (hr : r < R) (hj : j < C) :
    ((List.range R).flatMap (fun i => (List.range C).map (f i)))[r * C + j]? =
      some (f r j) := by
  induction R with
  | zero => omega
  | succ R ih =>
      rw [List.range_succ, List.flatMap_append]
      by_cases hrR : r < R
      · rw [List.getElem?_append, if_pos (by
          rw [flatRows_length]
          calc r * C + j < r * C + C := by omega
            _ = (r + 1) * C := by ring
            _ ≤ R * C := Nat.mul_le_mul_right C (by omega))]
        exact ih hrR
      · have hrEq : r = R := by omega
        subst hrEq
        rw [List.getElem?_append, if_neg (by rw [flatRows_length]; omega),
          flatRows_length]
        have hsub : r * C + j - r * C = j := by omega
        rw [hsub]
        simp only [List.flatMap_cons, List.flatMap_nil, List.append_nil]
        rw [List.getElem?_map]
        simp [List.getElem?_range, hj]

/-- `matrix_to_array` always takes the `Ok` branch of its internal
`from_vec(..).unwrap()`, producing the row-major flat data with shape
`[rows, cols]`. -/
theorem matrixFlatData_length [Inhabited α] (m : Matrix α) :
    (matrixFlatData m).length = ([m.rows, m.cols] : List Nat).prod := by
  unfold matrixFlatData
  rw [flatRows_length]
  simp [List.prod_cons]

theorem matrix_to_array_eq [Inhabited α] (m : Matrix α) :
    matrix_to_array m =
      { data := matrixFlatData m
        shape := [m.rows, m.cols]
        strides := NDArray.calculate_strides [m.rows, m.cols] } := by
  have hfv : NDArray.from_vec (matrixFlatData m) [m.rows, m.cols] =
      .ok { data := matrixFlatData m
            shape := [m.rows, m.cols]
            strides := NDArray.calculate_strides [m.rows, m.cols] } := by
    unfold NDArray.from_vec
    rw [if_neg (by rw [matrixFlatData_length]; omega)]
  unfold matrix_to_array
  rw [hfv]

theorem matrix_to_array_WF [Inhabited α] (m : Matrix α) :
    (matrix_to_array m).WF := by
  rw [matrix_to_array_eq]
  exact ⟨matrixFlatData_length m, rfl⟩

/-- Claim C8: every array reachable through the public constructors and
transformers satisfies `data.length == product(shape)` with strides the
row-major function of shape; `from_vec` with a mismatched length fails
rather than truncating or padding. -/
theorem claim_C8_size_invariant :
    (∀ (α : Type) (_inst : Inhabited α) (shape : List Nat),
      (NDArray.new shape : NDArray α).WF) ∧
    (∀ (α : Type) (v : α) (shape : List Nat),
      (NDArray.with_value shape v).WF) ∧
    (∀ (α : Type) (data : List α) (shape : List Nat),
      ((∃ a, NDArray.from_vec data shape = .ok a) ↔
        data.length = shape.prod) ∧
      (∀ a, NDArray.from_vec data shape = .ok a → a.WF ∧ a.data = data)) ∧
    (∀ (α : Type) (ofInt : Int → α) (shape : List Nat),
      (NDArray.zeros ofInt shape).WF ∧ (NDArray.ones ofInt shape).WF) ∧
    (∀ (α : Type) (a r : NDArray α) (ns : List Nat),
      a.reshape ns = .ok r → r.WF) ∧
    (∀ (α : Type) (a : NDArray α), a.flatten.WF) ∧
    (∀ (α : Type) (a : NDArray α) (is : List Nat) (v : α), a.WF →
      ((a.set is v).2).WF) ∧
    (∀ (α : Type) (_inst : Inhabited α) (m : Matrix α),
      (matrix_to_array m).WF) := by
  have hwv : ∀ (α : Type) (v : α) (shape : List Nat),
      (NDArray.with_value shape v).WF := by
    intro α v shape
    exact ⟨List.length_replicate shape.prod v, rfl⟩
  refine ⟨fun α _inst shape => hwv α default shape, hwv, ?_, ?_, ?_, ?_, ?_,
    fun α _inst m => matrix_to_array_WF m⟩
  · intro α data shape
    unfold NDArray.from_vec
    by_cases hl : data.length = shape.prod
    · rw [if_neg (by omega)]
      exact ⟨⟨fun _ => hl, fun _ => ⟨_, rfl⟩⟩, fun a ha => by
        injection ha with ha
        subst ha
        exact ⟨⟨hl, rfl⟩, rfl⟩⟩
    · rw [if_pos (by omega)]
      exact ⟨⟨fun ⟨a, ha⟩ => Except.noConfusion ha, fun h => absurd h hl⟩,
        fun a ha => Except.noConfusion ha⟩
  · intro α ofInt shape
    exact ⟨hwv α (ofInt 0) shape, hwv α (ofInt 1) shape⟩
  · intro α a r ns hr
    unfold NDArray.reshape at hr
    by_cases hp : ns.prod = a.size
    · rw [if_neg (by omega)] at hr
      injection hr with hr
      subst hr
      exact ⟨hp.symm, rfl⟩
    · rw [if_pos (by omega)] at hr
      exact Except.noConfusion hr
  · intro α a
    rw [flatten_eq]
    exact ⟨by simp [NDArray.size], rfl⟩
  · intro α a is v h
    cases hfi : a.flat_index is with
    | some n =>
        rw [set_eq_of_some a is v n hfi]
        exact ⟨by rw [List.length_set]; exact h.1, h.2⟩
    | none =>
        rw [set_eq_of_none a is v hfi]
        exact h

/-- Witness for C8: the reshape, set, and `from_vec` clauses evaluated
at concrete arrays. -/
theorem claim_C8_size_invariant_witness :
    ((NDArray.mk [1, 2, 3, 4, 5, 6] [2, 3] [3, 1] : NDArray Int).reshape
        [6, 1] = .ok (NDArray.mk [1, 2, 3, 4, 5, 6] [6, 1] [1, 1]) ∧
      (NDArray.mk [1, 2, 3, 4, 5, 6] [6, 1] [1, 1] : NDArray Int).WF) ∧
    ((NDArray.mk [1, 2] [2] [1] : NDArray Int).WF ∧
      (((NDArray.mk [1, 2] [2] [1] : NDArray Int).set [0] 9).2).WF) ∧
    (NDArray.from_vec [1, 2, 3] [2] = (.error .shapeMismatch :
      Except NDArrayError (NDArray Int))) := by
  refine ⟨⟨by decide, ?_⟩, ⟨by decide, ?_⟩, by decide⟩
  · exact claim_C8_size_invariant.2.2.2.2.1 Int
      (NDArray.mk [1, 2, 3, 4, 5, 6] [2, 3] [3, 1])
      (NDArray.mk [1, 2, 3, 4, 5, 6] [6, 1] [1, 1]) [6, 1] (by decide)
  · exact claim_C8_size_invariant.2.2.2.2.2.2.1 Int
      (NDArray.mk [1, 2] [2] [1]) [0] 9 (by decide)

/-! ### Identity-matrix lemmas -/

theorem identity_foldl_length {α : Type} [Inhabited α] (ofInt : Int → α)
    (m n : Nat) :
    ((List.range m).foldl
        (fun d j => d.set j ((d.getD j []).set j (ofInt 1)))
        (List.replicate n (List.replicate n (default : α)))).length = n := by
  induction m with
  | zero => simp
  | succ m ih =>
      rw [List.range_succ, List.foldl_append]
      simp only [List.foldl_cons, List.foldl_nil, List.length_set]
      exact ih

theorem identity_foldl_getElem {α : Type} [Inhabited α] (ofInt : Int → α)
    (n m : Nat) (hm : m ≤ n) (i : Nat) (hi : i < n) :
    ((List.range m).foldl
        (fun d j => d.set j ((d.getD j []).set j (ofInt 1)))
        (List.replicate n (List.replicate n (default : α))))[i]? =
      some (if i < m then
              (List.replicate n (default : α)).set i (ofInt 1)
            else List.replicate n (default : α)) := by
  induction m generalizing i with
  | zero =>
      rw [if_neg (by omega)]
      simp [List.getElem?_replicate, hi]
  | succ m ih =>
      rw [List.range_succ, List.foldl_append]
      simp only [List.foldl_cons, List.foldl_nil]
      have ihm := ih (by omega)
      have hrow : ((List.range m).foldl
          (fun d j => d.set j ((d.getD j []).set j (ofInt 1)))
          (List.replicate n (List.replicate n (default : α)))).getD m [] =
          List.replicate n (default : α) := by
        rw [List.getD_eq_getElem?_getD, ihm m hm, if_neg (by omega)]
        rfl
      rw [hrow]
      by_cases him : i = m
      · subst him
        rw [List.getElem?_set_eq_of_lt _ (by rw [identity_foldl_length]; omega),
          if_pos (by omega)]
      · rw [List.getElem?_set_ne (fun h => him h.symm), ihm i hi]
        by_cases hlt : i < m
        · rw [if_pos hlt, if_pos (by omega)]
        · rw [if_neg hlt, if_neg (by omega)]

/-- Claim C9: `identity(n)` is an n×n matrix with the element type's
conversion of `1` on every diagonal cell and `0` everywhere else (the
off-diagonal cells hold `T::default()`, which is `0` for the numeric
element types the constructor is meant for). -/
theorem claim_C9_identity {α : Type} [Inhabited α] [Zero α]
    (ofInt : Int → α) (hd : (default : α) = 0) (n : Nat) :
    (Matrix.identity ofInt n).rows = n ∧
    (Matrix.identity ofInt n).cols = n ∧
    ∀ i j, i < n → j < n →
      (Matrix.identity ofInt n).entry i j =
        if i = j then ofInt 1 else 0 := by
  refine ⟨rfl, rfl, ?_⟩
  intro i j hi hj
  unfold Matrix.identity Matrix.entry Matrix.new
  have hrow : ((List.range n).foldl
      (fun d k => d.set k ((d.getD k []).set k (ofInt 1)))
      (List.replicate n (List.replicate n (default : α)))).getD i [] =
      (List.replicate n (default : α)).set i (ofInt 1) := by
    rw [List.getD_eq_getElem?_getD,
      identity_foldl_getElem ofInt n n (le_refl n) i hi, if_pos hi]
    rfl
  show (((List.range n).foldl
      (fun d k => d.set k ((d.getD k []).set k (ofInt 1)))
      (List.replicate n (List.replicate n (default : α)))).getD i []).getD
        j default = if i = j then ofInt 1 else 0
  rw [hrow, List.getD_eq_getElem?_getD]
  by_cases hij : i = j
  · subst hij
    rw [List.getElem?_set_eq_of_lt _ (by simpa using hi), if_pos rfl]
    rfl
  · rw [List.getElem?_set_ne hij, if_neg hij]
    simp [List.getElem?_replicate, hj, hd]

/-- Witness for C9: `identity(3)` over `Int` has `1` at `(1,1)` and `0`
at `(0,2)`. -/
theorem claim_C9_identity_witness :
    ((default : Int) = 0) ∧
      (Matrix.identity (fun z => z) 3 : Matrix Int).rows = 3 ∧
      (Matrix.identity (fun z => z) 3 : Matrix Int).entry 1 1 = 1 ∧
      (Matrix.identity (fun z => z) 3 : Matrix Int).entry 0 2 = 0 := by
  have h := claim_C9_identity (α := Int) (fun z => z) (by decide) 3
  refine ⟨by decide, h.1, ?_, ?_⟩
  · simpa using h.2.2 1 1 (by decide) (by decide)
  · simpa using h.2.2 0 2 (by decide) (by decide)

/-! ### Multiplication lemmas -/

theorem foldl_add_eq_sum (f : Nat → Int) (L : List Nat) (init : Int) :
    L.foldl (fun s k => s + f k) init = init + (L.map f).sum := by
  induction L generalizing init with
  | nil => simp
  | cons k L ih => simp [ih, add_assoc]

theorem range_map_getElem {β : Type} (n i : Nat) (h : i < n) (f : Nat → β) :
    ((List.range n).map f)[i]? = some (f i) := by
  rw [List.getElem?_map]
  simp [List.getElem?_range, h]

theorem entry_map_map {β : Type} [Inhabited β] (R C : Nat)
    (g : Nat → Nat → β) (rows cols : Nat) (i j : Nat)
    (hi : i < R) (hj : j < C) :
    (Matrix.mk ((List.range R).map (fun r => (List.range C).map (g r)))
        rows cols).entry i j = g i j := by
  have h1 : ((List.range R).map (fun r =>
      (List.range C).map (g r))).getD i [] = (List.range C).map (g i) := by
    rw [List.getD_eq_getElem?_getD, range_map_getElem R i hi]
    rfl
  have h2 : ((List.range C).map (g i)).getD j default = g i j := by
    rw [List.getD_eq_getElem?_getD, range_map_getElem C j hj]
    rfl
  unfold Matrix.entry
  show (((List.range R).map (fun r =>
    (List.range C).map (g r))).getD i []).getD j default = g i j
  rw [h1, h2]

/-- Claim C7: `A * B` fails exactly when `A.cols != B.rows`; otherwise
it is the standard row-by-column dot product, each output cell summed
(from the element default, which is `0` for `Int`) over the element
type's own multiplication; `[[1,2],[3,4]] * [[5,6],[7,8]]` equals
`[[19,22],[43,50]]`, ∧ a 2x3 matrix times a 2x2 matrix fails. -/
theorem claim_C7_mul :
    (∀ (alpha : Type) [Inhabited alpha] [Add alpha] [Mul alpha]
        (a b : Matrix alpha),
      ((exists c, a.mul b = .ok c) ↔ a.cols = b.rows) ∧
      (∀ c, a.mul b = .ok c → c.rows = a.rows ∧ c.cols = b.cols)) ∧
    (∀ (a b c : Matrix Int), a.mul b = .ok c ->
      ∀ i j, i < a.rows → j < b.cols ->
        c.entry i j =
          ((List.range a.cols).map
            (fun k => a.entry i k * b.entry k j)).sum) ∧
    Matrix.mul (Matrix.mk [[1, 2], [3, 4]] 2 2)
        (Matrix.mk [[5, 6], [7, 8]] 2 2) =
      .ok (Matrix.mk [[19, 22], [43, 50]] 2 2) ∧
    (Matrix.mul (Matrix.mk [[1, 2, 3], [4, 5, 6]] 2 3)
        (Matrix.mk [[1, 2], [3, 4]] 2 2) : Except String (Matrix Int)) =
      .error "Number of columns in first matrix must equal number of rows in second matrix" := by
  refine ⟨?_, ?_, by decide, by decide⟩
  · intro alpha _ _ _ a b
    unfold Matrix.mul
    by_cases hd : a.cols = b.rows
    · rw [if_neg (by omega)]
      exact ⟨⟨fun _ => hd, fun _ => ⟨_, rfl⟩⟩, fun c hc => by
        injection hc with hc
        subst hc
        exact ⟨rfl, rfl⟩⟩
    · rw [if_pos (by omega)]
      exact ⟨⟨fun ⟨c, hc⟩ => Except.noConfusion hc, fun h => absurd h hd⟩,
        fun c hc => Except.noConfusion hc⟩
  · intro a b c hc i j hi hj
    unfold Matrix.mul at hc
    by_cases hd : a.cols = b.rows
    · rw [if_neg (by omega)] at hc
      injection hc with hc
      subst hc
      have he := entry_map_map a.rows b.cols
        (fun i j => (List.range a.cols).foldl
          (fun sum k => sum + a.entry i k * b.entry k j) (default : Int))
        a.rows b.cols i j hi hj
      rw [he]
      show (List.range a.cols).foldl
          (fun sum k => sum + a.entry i k * b.entry k j) (default : Int) =
        ((List.range a.cols).map (fun k => a.entry i k * b.entry k j)).sum
      rw [foldl_add_eq_sum]
      have hdz : (default : Int) = 0 := rfl
      rw [hdz, zero_add]
    · rw [if_pos (by omega)] at hc
      exact Except.noConfusion hc

/-- Witness for C7: the dimension ∧ dot-product clauses applied to the
concrete product `[[1,2],[3,4]] * [[5,6],[7,8]]`. -/
theorem claim_C7_mul_witness :
    ((Matrix.mk [[1, 2], [3, 4]] 2 2 : Matrix Int).mul
        (Matrix.mk [[5, 6], [7, 8]] 2 2) =
      .ok (Matrix.mk [[19, 22], [43, 50]] 2 2)) ∧
    (Matrix.mk [[19, 22], [43, 50]] 2 2 : Matrix Int).entry 0 1 =
      ((List.range 2).map (fun k =>
        (Matrix.mk [[1, 2], [3, 4]] 2 2 : Matrix Int).entry 0 k *
          (Matrix.mk [[5, 6], [7, 8]] 2 2 : Matrix Int).entry k 1)).sum := by
  refine ⟨by decide, ?_⟩
  exact claim_C7_mul.2.1 (Matrix.mk [[1, 2], [3, 4]] 2 2)
    (Matrix.mk [[5, 6], [7, 8]] 2 2) (Matrix.mk [[19, 22], [43, 50]] 2 2)
    (by decide) 0 1 (by decide) (by decide)

/-! ### Round-trip lemmas -/

theorem shape_pair (l : List Nat) (h : l.length = 2) :
    l = [l.getD 0 0, l.getD 1 0] := by
  cases l with
  | nil => simp at h
  | cons x t =>
      cases t with
      | nil => simp at h
      | cons y t2 =>
          cases t2 with
          | nil => rfl
          | cons z t3 => simp at h

theorem data_length_pair (a : NDArray α) (h : a.WF) (d0 d1 : Nat)
    (hs : a.shape = [d0, d1]) : a.data.length = d0 * d1 := by
  rw [h.1, hs]
  simp [List.prod_cons]

theorem get_pair (a : NDArray α) (h : a.WF) (d0 d1 : Nat)
    (hs : a.shape = [d0, d1]) (r c : Nat) (hr : r < d0) (hc : c < d1) :
    a.get [r, c] = a.data[r * d1 + c]? := by
  have hcond : ([r, c] : List Nat).length = a.shape.length ∧
      inBounds [r, c] a.shape = true := by
    rw [hs]
    exact ⟨rfl, by simp [inBounds, hr, hc]⟩
  have hmrv : mrv [r, c] a.shape = r * d1 + c := by
    rw [hs]
    simp [mrv]
  unfold NDArray.get
  rw [flat_index_of_inBounds a h.2 [r, c] hcond, hmrv]
  rfl

theorem eq_range_map_getD {β : Type} [Inhabited β] (row : List β) (C : Nat)
    (hlen : row.length = C) :
    row = (List.range C).map (fun c => row.getD c default) := by
  apply List.ext_getElem?
  intro c
  by_cases hc : c < C
  · have hc2 : c < row.length := by omega
    rw [range_map_getElem C c hc, List.getElem?_eq_getElem hc2]
    congr 1
    rw [List.getD_eq_getElem?_getD, List.getElem?_eq_getElem hc2]
    rfl
  · rw [List.getElem?_eq_none (by omega),
      List.getElem?_eq_none (by simp; omega)]

theorem from_vec_grid {β : Type} (R C : Nat) (hR : 1 ≤ R)
    (f : Nat → Nat → β) :
    Matrix.from_vec ((List.range R).map (fun r => (List.range C).map (f r))) =
      .ok (Matrix.mk
        ((List.range R).map (fun r => (List.range C).map (f r))) R C) := by
  have hlen : ((List.range R).map
      (fun r => (List.range C).map (f r))).length = R := by simp
  have hne : ((List.range R).map
      (fun r => (List.range C).map (f r))).isEmpty = false := by
    rw [List.isEmpty_eq_false_iff_exists_mem]
    exact ⟨(List.range C).map (f 0),
      List.mem_map.mpr ⟨0, List.mem_range.mpr (by omega), rfl⟩⟩
  have hhead : (((List.range R).map
      (fun r => (List.range C).map (f r))).headD []).length = C := by
    rw [List.headD_eq_head?_getD, List.head?_eq_getElem?,
      range_map_getElem R 0 (by omega)]
    simp
  have hall : ((List.range R).map (fun r => (List.range C).map (f r))).all
      (fun row => decide (row.length = (((List.range R).map
        (fun r => (List.range C).map (f r))).headD []).length)) = true := by
    rw [List.all_eq_true]
    intro row hrow
    obtain ⟨r2, hr2, rfl⟩ := List.mem_map.mp hrow
    rw [hhead]
    simp
  unfold Matrix.from_vec
  rw [if_neg (by simp [hne]), if_pos hall, hlen, hhead]

theorem matrix_data_eq_grid {α : Type} [Inhabited α] (m : Matrix α)
    (h : m.WF) :
    m.data = (List.range m.rows).map (fun r =>
      (List.range m.cols).map (m.entry r)) := by
  apply List.ext_getElem?
  intro n
  by_cases hn : n < m.rows
  · have hn2 : n < m.data.length := by rw [h.1]; exact hn
    rw [range_map_getElem m.rows n hn, List.getElem?_eq_getElem hn2]
    congr 1
    have hget : m.data.getD n [] = m.data[n] := by
      rw [List.getD_eq_getElem?_getD, List.getElem?_eq_getElem hn2]
      rfl
    have hrowlen : (m.data[n]).length = m.cols :=
      h.2 _ (List.getElem_mem hn2)
    calc m.data[n]
        = (List.range m.cols).map (fun c => (m.data[n]).getD c default) :=
          eq_range_map_getD _ _ hrowlen
      _ = (List.range m.cols).map (m.entry n) := by
          apply List.map_congr_left
          intro c hc
          unfold Matrix.entry
          rw [hget]
  · rw [List.getElem?_eq_none (by rw [h.1]; omega),
      List.getElem?_eq_none (by simp; omega)]

theorem ndarray_eq_of_fields (x y : NDArray α) (h1 : x.data = y.data)
    (h2 : x.shape = y.shape) (h3 : x.strides = y.strides) : x = y := by
  cases x
  cases y
  rw [NDArray.mk.injEq]
  exact ⟨h1, h2, h3⟩

/-- The matrix-first round trip, valid when the matrix has at least one
row. -/
theorem roundtrip_matrix {α : Type} [Inhabited α] (m : Matrix α)
    (h : m.WF) (hr : 1 ≤ m.rows) :
    array_to_matrix (matrix_to_array m) = .ok m := by
  have hAWF : (matrix_to_array m).WF := matrix_to_array_WF m
  rw [matrix_to_array_eq m] at hAWF ⊢
  unfold array_to_matrix
  rw [if_neg (by simp [NDArray.ndim])]
  simp only [List.getD_cons_zero, List.getD_cons_succ]
  have harr : arrayRowsData
      { data := matrixFlatData m, shape := [m.rows, m.cols],
        strides := NDArray.calculate_strides [m.rows, m.cols] }
      m.rows m.cols =
      (List.range m.rows).map (fun r =>
        (List.range m.cols).map (m.entry r)) := by
    unfold arrayRowsData
    apply List.map_congr_left
    intro r hrr
    rw [List.mem_range] at hrr
    apply List.map_congr_left
    intro c hcc
    rw [List.mem_range] at hcc
    rw [get_pair _ hAWF m.rows m.cols rfl r c hrr hcc]
    show (matrixFlatData m)[r * m.cols + c]?.getD default = m.entry r c
    unfold matrixFlatData
    rw [flatRows_getElem m.rows m.cols m.entry r c hrr hcc]
    rfl
  rw [harr, from_vec_grid m.rows m.cols hr m.entry,
    ← matrix_data_eq_grid m h]

/-- The array-first round trip for a well-formed rank-2 array with a
nonzero first extent. -/
theorem roundtrip_array_pair {α : Type} [Inhabited α] (a : NDArray α)
    (h : a.WF) (d0 d1 : Nat) (hs : a.shape = [d0, d1]) (h0 : 1 ≤ d0) :
    array_to_matrix a =
      .ok (Matrix.mk ((List.range d0).map (fun r =>
        (List.range d1).map (fun c => (a.get [r, c]).getD default)))
        d0 d1) ∧
    matrix_to_array (Matrix.mk ((List.range d0).map (fun r =>
        (List.range d1).map (fun c => (a.get [r, c]).getD default)))
        d0 d1) = a := by
  have hlen : a.data.length = d0 * d1 := data_length_pair a h d0 d1 hs
  constructor
  · unfold array_to_matrix
    rw [if_neg (by simp [NDArray.ndim, hs])]
    rw [hs]
    simp only [List.getD_cons_zero, List.getD_cons_succ]
    rw [show arrayRowsData a d0 d1 = (List.range d0).map (fun r =>
        (List.range d1).map (fun c => (a.get [r, c]).getD default))
      from rfl]
    rw [from_vec_grid d0 d1 h0
      (fun r c => (a.get [r, c]).getD default)]
  · rw [matrix_to_array_eq]
    have hdata : matrixFlatData (Matrix.mk ((List.range d0).map (fun r =>
        (List.range d1).map (fun c => (a.get [r, c]).getD default)))
        d0 d1) = a.data := by
      unfold matrixFlatData
      simp only []
      apply List.ext_getElem?
      intro n
      by_cases hn : n < d0 * d1
      · have hd1 : 0 < d1 := by
          rcases Nat.eq_zero_or_pos d1 with h00 | h11
          · subst h00; simp at hn
          · exact h11
        have hrc : n / d1 * d1 + n % d1 = n := by
          rw [Nat.mul_comm]
          exact Nat.div_add_mod n d1
        have hr : n / d1 < d0 :=
          Nat.div_lt_of_lt_mul (by rw [Nat.mul_comm] at hn; exact hn)
        have hc : n % d1 < d1 := Nat.mod_lt n hd1
        rw [← hrc,
          flatRows_getElem d0 d1 _ (n / d1) (n % d1) hr hc,
          entry_map_map d0 d1
            (fun r c => (a.get [r, c]).getD default) d0 d1
            (n / d1) (n % d1) hr hc,
          get_pair a h d0 d1 hs (n / d1) (n % d1) hr hc]
        have hlt : n / d1 * d1 + n % d1 < a.data.length := by
          rw [hlen]
          omega
        rw [List.getElem?_eq_getElem hlt]
        rfl
      · rw [List.getElem?_eq_none (by rw [flatRows_length]; omega),
          List.getElem?_eq_none (by rw [hlen]; omega)]
    apply ndarray_eq_of_fields
    · exact hdata
    · exact hs.symm
    · show NDArray.calculate_strides [d0, d1] = a.strides
      rw [h.2, hs]

/-- Counterexample to C1 as stated: the claim allows zero-sized
dimensions, but a matrix with zero rows (here the well-formed `0×1`
matrix from `Matrix::new(0, 1)`) converts to a `[0, 1]`-shaped array
whose conversion back fails with `ShapeMismatch` (the internal
`Matrix::from_vec` rejects an empty row list), so the unwrapped
round trip does not return the matrix; likewise a well-formed rank-2
array with `shape[0] = 0` cannot be converted to a matrix at all. -/
theorem claim_C1_roundtrip_counterexample :
    (Matrix.new 0 1 : Matrix Int).WF ∧
    array_to_matrix (matrix_to_array (Matrix.new 0 1 : Matrix Int)) =
      .error .shapeMismatch ∧
    array_to_matrix (matrix_to_array (Matrix.new 0 1 : Matrix Int)) ≠
      .ok (Matrix.new 0 1 : Matrix Int) ∧
    (NDArray.mk ([] : List Int) [0, 2] [2, 1]).WF ∧
    array_to_matrix (NDArray.mk ([] : List Int) [0, 2] [2, 1]) =
      .error .shapeMismatch := by
  exact ⟨by decide, by decide, by decide, by decide, by decide⟩

/-- Claim C1 (amended): the round trip is the identity for every
well-formed matrix with at least one row, and every well-formed rank-2
array with a nonzero first extent converts to a matrix that converts
back to the same array; zero columns are allowed, but zero rows make
the array-to-matrix direction fail. -/
theorem claim_C1_roundtrip_amended {α : Type} [Inhabited α] :
    (∀ m : Matrix α, m.WF → 1 ≤ m.rows →
      array_to_matrix (matrix_to_array m) = .ok m) ∧
    (∀ a : NDArray α, a.WF → a.ndim = 2 → 1 ≤ a.shape.getD 0 0 →
      ∃ m2, array_to_matrix a = .ok m2 ∧ matrix_to_array m2 = a) := by
  refine ⟨fun m h hr => roundtrip_matrix m h hr, fun a h h2 h0 => ?_⟩
  have hs := shape_pair a.shape h2
  have hrt := roundtrip_array_pair a h (a.shape.getD 0 0)
    (a.shape.getD 1 0) hs h0
  exact ⟨_, hrt.1, hrt.2⟩

/-- Witness for the amended C1 at the `2×3` integer matrix
`[[1,2,3],[4,5,6]]` and at the well-formed `[2,2]`-shaped array
`[1,2,3,4]`. -/
theorem claim_C1_roundtrip_amended_witness :
    ((Matrix.mk [[1, 2, 3], [4, 5, 6]] 2 3 : Matrix Int).WF ∧
      array_to_matrix (matrix_to_array
        (Matrix.mk [[1, 2, 3], [4, 5, 6]] 2 3 : Matrix Int)) =
        .ok (Matrix.mk [[1, 2, 3], [4, 5, 6]] 2 3)) ∧
    ((NDArray.mk [1, 2, 3, 4] [2, 2] [2, 1] : NDArray Int).WF ∧
      ∃ m2, array_to_matrix
          (NDArray.mk [1, 2, 3, 4] [2, 2] [2, 1] : NDArray Int) = .ok m2 ∧
        matrix_to_array m2 = NDArray.mk [1, 2, 3, 4] [2, 2] [2, 1]) := by
  constructor
  · exact ⟨by decide, claim_C1_roundtrip_amended.1
      (Matrix.mk [[1, 2, 3], [4, 5, 6]] 2 3) (by decide) (by decide)⟩
  · exact ⟨by decide, claim_C1_roundtrip_amended.2
      (NDArray.mk [1, 2, 3, 4] [2, 2] [2, 1]) (by decide) (by decide)
      (by decide)⟩

end MatrixLib
